import Mathlib

/-!
Verification of the canteen-management backend's order subsystem.

The Lean definitions below are a shallow embedding of the repository's
Python source (`app/api/orders.py`, `app/api/food_items.py`,
`app/db/models.py`): relational rows become structures, the database
becomes an explicit `Store` value, request handlers become functions
`Store → request → Store × Except ApiError result`, and raising
`HTTPException` before the single `commit` becomes returning the
original store together with an error.  Python `float` prices are
modelled as rationals; `int` columns as `Int`.
-/

namespace Canteen

/-- Row of the `users` table (`app/db/models.py`, class `User`). -/
structure User where
  id : Int
  name : String
  email : String
  password : String
  role : String
deriving DecidableEq

/-- Row of the `food_items` table (`app/db/models.py`, class `FoodItem`). -/
structure FoodItem where
  id : Int
  name : String
  price : ℚ
  category : String
  stock : Int
deriving DecidableEq

/-- Row of the `orders` table (`app/db/models.py`, class `Order`).
`created_at` is the server-side clock value, passed in explicitly. -/
structure Order where
  id : Int
  user_id : Int
  total_amount : ℚ
  created_at : Nat
deriving DecidableEq

/-- Row of the `order_items` table (`app/db/models.py`, class `OrderItem`).
The table carries `CheckConstraint ("quantity > 0")`, modelled at commit
time in `create_order`. -/
structure OrderItem where
  id : Int
  order_id : Int
  food_item_id : Int
  quantity : Int
  item_price : ℚ
  total_price : ℚ
deriving DecidableEq

/-- The whole relational database. -/
structure Store where
  users : List User
  food_items : List FoodItem
  orders : List Order
  order_items : List OrderItem
deriving DecidableEq

/-- Error taxonomy of the HTTP handlers: each constructor corresponds to one
`raise HTTPException(...)` site (or a database integrity failure at commit). -/
inductive ApiError where
  | notFound (detail : String)
  | invalidReq (detail : String)
  | duplicateEntity (detail : String)
  | outOfStock (name : String)
  | insufficientStock (name : String) (available : Int)
  | storeFailure (detail : String)
deriving DecidableEq

/-- Request schema `OrderItemCreate` (`app/api/orders.py`): plain ints,
no pydantic bound on `quantity`. -/
structure OrderItemCreate where
  food_item_id : Int
  quantity : Int
deriving DecidableEq

/-- Request schema `OrderCreate` (`app/api/orders.py`). -/
structure OrderCreate where
  user_id : Int
  items : List OrderItemCreate
deriving DecidableEq

/-- Response schema `InvoiceItem` (`app/api/orders.py`). -/
structure InvoiceItem where
  food_item : String
  quantity : Int
  unit_price : ℚ
  subtotal : ℚ
deriving DecidableEq

/-- Response schema `Invoice` (`app/api/orders.py`). -/
structure Invoice where
  order_id : Int
  customer_name : String
  total_items : Nat
  total_amount : ℚ
  order_date : Nat
  items : List InvoiceItem
deriving DecidableEq

/-- A line item built during validation, before primary keys are assigned
(the `models.OrderItem(...)` values accumulated in `order_items` in
`create_order` before the commit). -/
structure PendingItem where
  food_item_id : Int
  quantity : Int
  item_price : ℚ
  total_price : ℚ
deriving DecidableEq

/-- In-request stock mutation `food.stock -= item.quantity`: the fetched row
with identity `fid` gets stock `newStock`; other rows are untouched. -/
def setStock (foods : List FoodItem) (fid : Int) (newStock : Int) : List FoodItem :=
  foods.map (fun f => if f.id == fid then { f with stock := newStock } else f)

/-- The validation loop of `create_order` (`app/api/orders.py` lines 64-87):
for each requested line, look the food up in the fetched batch, fail
`NotFound` / `OutOfStock` / `InsufficientStock` in that order, otherwise
accumulate the subtotal, decrement the in-memory stock (visible to later
lines of the same request) and record a pending line item with a price
snapshot. -/
def processItems (foods : List FoodItem) (total : ℚ) (acc : List PendingItem) :
    List OrderItemCreate → Except ApiError (List FoodItem × ℚ × List PendingItem)
  | [] => .ok (foods, total, acc)
  | line :: rest =>
    match foods.find? (fun f => f.id == line.food_item_id) with
    | none => .error (ApiError.notFound
        ("Food item ID " ++ toString line.food_item_id ++ " not found"))
    | some food =>
      if food.stock ≤ 0 then .error (ApiError.outOfStock food.name)
      else if line.quantity > food.stock then
        .error (ApiError.insufficientStock food.name food.stock)
      else
        processItems (setStock foods food.id (food.stock - line.quantity))
          (total + food.price * (line.quantity : ℚ))
          (acc ++ [⟨line.food_item_id, line.quantity, food.price,
                   food.price * (line.quantity : ℚ)⟩]) rest

/-- The per-line validation of `create_order` in isolation: the error the
loop raises on this line given the current (running) fetched rows, or
`none` when the line passes. -/
def lineCheck (foods : List FoodItem) (line : OrderItemCreate) : Option ApiError :=
  match foods.find? (fun f => f.id == line.food_item_id) with
  | none => some (ApiError.notFound
      ("Food item ID " ++ toString line.food_item_id ++ " not found"))
  | some food =>
    if food.stock ≤ 0 then some (ApiError.outOfStock food.name)
    else if line.quantity > food.stock then
      some (ApiError.insufficientStock food.name food.stock)
    else none

/-- Autoincrement primary key for a new `orders` row. -/
def nextOrderId (st : Store) : Int :=
  1 + (st.orders.map (fun o => o.id)).foldr max 0

/-- Autoincrement primary key for new `order_items` rows. -/
def nextOrderItemId (st : Store) : Int :=
  1 + (st.order_items.map (fun i => i.id)).foldr max 0

/-- Autoincrement primary key for a new `food_items` row. -/
def nextFoodId (st : Store) : Int :=
  1 + (st.food_items.map (fun f => f.id)).foldr max 0

/-- Give the pending line items their primary keys and owning order id
(what the ORM does when the new `Order` with its `order_items` is flushed). -/
def assignIds (oid : Int) (iid : Int) : List PendingItem → List OrderItem
  | [] => []
  | p :: ps =>
    { id := iid, order_id := oid, food_item_id := p.food_item_id,
      quantity := p.quantity, item_price := p.item_price,
      total_price := p.total_price } :: assignIds oid (iid + 1) ps

/-- Commit the in-session stock mutations: every `food_items` row that was
fetched (and possibly mutated) by the request is replaced by its mutated
version; rows not fetched are untouched. -/
def commitStocks (storeFoods updated : List FoodItem) : List FoodItem :=
  storeFoods.map (fun f =>
    match updated.find? (fun g => g.id == f.id) with
    | some g => g
    | none => f)

/-- Build one value per element, failing as a whole when any element fails
(the invoice-items list comprehension, whose attribute accesses raise when a
relation row is missing). -/
def mapOption {α β : Type} (g : α → Option β) : List α → Option (List β)
  | [] => some []
  | a :: t =>
    match g a with
    | none => none
    | some b =>
      match mapOption g t with
      | none => none
      | some r => some (b :: r)

/-- The joined re-read used by the invoice endpoints: the order's user via
`Order.user`, its line items via `Order.order_items`, and each line's food
via `OrderItem.food_item`.  `none` when a relation is missing (in Python
that path raises, surfacing as a 500). -/
def invoiceOfOrder (st : Store) (o : Order) : Option Invoice :=
  match st.users.find? (fun u => u.id == o.user_id) with
  | none => none
  | some u =>
    let its := st.order_items.filter (fun i => i.order_id == o.id)
    match mapOption (fun i =>
        (st.food_items.find? (fun f => f.id == i.food_item_id)).map
          (fun f => InvoiceItem.mk f.name i.quantity i.item_price i.total_price)) its with
    | none => none
    | some lines =>
      some { order_id := o.id, customer_name := u.name, total_items := its.length,
             total_amount := o.total_amount, order_date := o.created_at,
             items := lines }

/-- The batch fetch of `create_order`: `select(FoodItem).where(id.in_(food_ids))`
for the ids the request references. -/
def fetchedFoods (st : Store) (req : OrderCreate) : List FoodItem :=
  let foodIds := req.items.map (fun i => i.food_item_id)
  st.food_items.filter (fun f => foodIds.contains f.id)

/-- The `orders` row inserted by `create_order`. -/
def newOrderRow (st : Store) (now : Nat) (req : OrderCreate) (total : ℚ) : Order :=
  { id := nextOrderId st, user_id := req.user_id, total_amount := total,
    created_at := now }

/-- The store after `create_order`'s single commit: mutated stocks written
back, the new order row and its line items appended. -/
def committedStore (st : Store) (now : Nat) (req : OrderCreate)
    (foods1 : List FoodItem) (total : ℚ) (pend : List PendingItem) : Store :=
  { st with
    food_items := commitStocks st.food_items foods1,
    orders := st.orders ++ [newOrderRow st now req total],
    order_items := st.order_items ++
      assignIds (nextOrderId st) (nextOrderItemId st) pend }

/-- Handler `create_order` (`app/api/orders.py` lines 43-133).
Paths, in source order: user lookup (404), empty-items check (400), batch
fetch of the referenced food rows, the validation loop, then one commit —
at which the database checks `quantity > 0` on every inserted line item —
and finally the full re-read that builds the invoice.  Every error raised
before the commit leaves the store untouched. -/
def create_order (st : Store) (now : Nat) (req : OrderCreate) :
    Store × Except ApiError Invoice :=
  match st.users.find? (fun u => u.id == req.user_id) with
  | none => (st, .error (ApiError.notFound "User not found"))
  | some _user =>
    if req.items.isEmpty then
      (st, .error (ApiError.invalidReq "Order must contain at least one item"))
    else
      match processItems (fetchedFoods st req) 0 [] req.items with
      | .error e => (st, .error e)
      | .ok (foods1, total, pend) =>
        if pend.all (fun p => decide (0 < p.quantity)) then
          let st' : Store := committedStore st now req foods1 total pend
          match st'.orders.find? (fun o => o.id == nextOrderId st) with
          | none => (st', .error (ApiError.storeFailure
              "Order could not be loaded after creation"))
          | some o =>
            match invoiceOfOrder st' o with
            | some inv => (st', .ok inv)
            | none => (st', .error (ApiError.storeFailure
                "Order could not be loaded after creation"))
        else
          (st, .error (ApiError.storeFailure
            "CHECK constraint check_quantity_positive failed"))

/-- Handler `get_order` (`app/api/orders.py` lines 172-201): joined read of
one order, 404 when the id is unknown, otherwise the invoice projection
built from the snapshotted `item_price` / `total_price`.  Read-only. -/
def get_order (st : Store) (oid : Int) : Except ApiError Invoice :=
  match st.orders.find? (fun o => o.id == oid) with
  | none => .error (ApiError.notFound "Order not found")
  | some o =>
    match invoiceOfOrder st o with
    | some inv => .ok inv
    | none => .error (ApiError.storeFailure "Order relations could not be loaded")

/-- Python `str.title()` over a character list: the first letter of every
alphabetic run is uppercased, the rest lowercased. -/
def titleChars : Bool → List Char → List Char
  | _, [] => []
  | prevAlpha, c :: cs =>
    (if c.isAlpha then (if prevAlpha then c.toLower else c.toUpper) else c)
      :: titleChars c.isAlpha cs

/-- Python `name.strip().title()` as used by the food-item handlers. -/
def pyStripTitle (s : String) : String :=
  String.mk (titleChars false s.trim.data)

/-- Request schema `FoodItemCreate` (`app/api/food_items.py`): pydantic
enforces `stock ≥ 0` (`Field(default=0, ge=0)`). -/
structure FoodItemCreate where
  name : String
  price : ℚ
  category : String
  stock : Int
deriving DecidableEq

/-- Request schema `FoodItemUpdate` (`app/api/food_items.py`): all fields
optional; pydantic enforces `stock ≥ 0` when present. -/
structure FoodItemUpdate where
  name : Option String
  price : Option ℚ
  category : Option String
  stock : Option Int
deriving DecidableEq

/-- Request schema `FoodRestock` (`app/api/food_items.py`): pydantic
enforces `added_stock > 0` (`Field(gt=0)`). -/
structure FoodRestock where
  added_stock : Int
deriving DecidableEq

/-- Handler `create_food_item` plus its pydantic schema validation
(`app/api/food_items.py` lines 34-68): reject negative initial stock (422),
reject a case-insensitive duplicate name (400), else insert the row with
`strip().title()` normalisation. -/
def create_food_item (st : Store) (req : FoodItemCreate) :
    Store × Except ApiError FoodItem :=
  if req.stock < 0 then
    (st, .error (ApiError.invalidReq "stock must be greater than or equal to 0"))
  else if st.food_items.any (fun f => f.name.toLower == req.name.toLower) then
    (st, .error (ApiError.duplicateEntity "Food item already exists"))
  else
    let nf : FoodItem :=
      { id := nextFoodId st, name := pyStripTitle req.name, price := req.price,
        category := pyStripTitle req.category, stock := req.stock }
    ({ st with food_items := st.food_items ++ [nf] }, .ok nf)

/-- `if updates.name: food_item.name = updates.name.strip().title()` —
Python truthiness skips both `None` and the empty string. -/
def applyNameUpdate (item : FoodItem) (n? : Option String) : FoodItem :=
  match n? with
  | some n => if n == "" then item else { item with name := pyStripTitle n }
  | none => item

/-- `if updates.price is not None: food_item.price = updates.price`. -/
def applyPriceUpdate (item : FoodItem) (p? : Option ℚ) : FoodItem :=
  match p? with
  | some p => { item with price := p }
  | none => item

/-- `if updates.category: food_item.category = updates.category.strip().title()`. -/
def applyCategoryUpdate (item : FoodItem) (c? : Option String) : FoodItem :=
  match c? with
  | some c => if c == "" then item else { item with category := pyStripTitle c }
  | none => item

/-- Handler `update_food_item` plus its pydantic schema validation
(`app/api/food_items.py` lines 109-151).  The explicit `updates.stock < 0`
re-check of the handler is kept even though the pydantic `ge=0` bound
already rejects such requests. -/
def update_food_item (st : Store) (fid : Int) (u : FoodItemUpdate) :
    Store × Except ApiError FoodItem :=
  if (match u.stock with | some s => decide (s < 0) | none => false) then
    (st, .error (ApiError.invalidReq "stock must be greater than or equal to 0"))
  else
    match st.food_items.find? (fun f => f.id == fid) with
    | none => (st, .error (ApiError.notFound "Food item not found"))
    | some item =>
      let nameDup : Bool :=
        match u.name with
        | some n => !(n == "") &&
            st.food_items.any (fun f => f.name.toLower == n.toLower && f.id != fid)
        | none => false
      if nameDup then
        (st, .error (ApiError.duplicateEntity
          "Another item with this name already exists"))
      else
        let item3 :=
          applyCategoryUpdate (applyPriceUpdate (applyNameUpdate item u.name)
            u.price) u.category
        match u.stock with
        | some s =>
          if s < 0 then (st, .error (ApiError.invalidReq "Stock cannot be negative"))
          else
            let item4 := { item3 with stock := s }
            ({ st with food_items :=
                st.food_items.map (fun f => if f.id == fid then item4 else f) },
             .ok item4)
        | none =>
          ({ st with food_items :=
              st.food_items.map (fun f => if f.id == fid then item3 else f) },
           .ok item3)

/-- Handler `restock_food_item` plus its pydantic schema validation
(`app/api/food_items.py` lines 156-176): `added_stock` must be positive,
the stock is increased additively. -/
def restock_food_item (st : Store) (fid : Int) (b : FoodRestock) :
    Store × Except ApiError FoodItem :=
  if b.added_stock ≤ 0 then
    (st, .error (ApiError.invalidReq "added_stock must be greater than 0"))
  else
    match st.food_items.find? (fun f => f.id == fid) with
    | none => (st, .error (ApiError.notFound "Food item not found"))
    | some item =>
      let item' := { item with stock := item.stock + b.added_stock }
      ({ st with food_items :=
          st.food_items.map (fun f => if f.id == fid then item' else f) },
       .ok item')

/-- Handler `delete_food_item` (`app/api/food_items.py` lines 181-190): 404
when absent; the `ondelete="RESTRICT"` foreign key makes the commit fail
while any order item references the row. -/
def delete_food_item (st : Store) (fid : Int) : Store × Except ApiError Unit :=
  match st.food_items.find? (fun f => f.id == fid) with
  | none => (st, .error (ApiError.notFound "Food item not found"))
  | some _item =>
    if st.order_items.any (fun i => i.food_item_id == fid) then
      (st, .error (ApiError.storeFailure "FOREIGN KEY constraint failed"))
    else
      ({ st with food_items := st.food_items.filter (fun f => !(f.id == fid)) },
       .ok ())

/-- Total quantity a request orders for one food item: the sum of the
quantities of all its lines referencing that id. -/
def sumQ (items : List OrderItemCreate) (fid : Int) : Int :=
  ((items.filter (fun i => i.food_item_id == fid)).map (fun i => i.quantity)).sum

instance exceptDecEq {e a : Type} [DecidableEq e] [DecidableEq a] :
    DecidableEq (Except e a)
  | .error x, .error y =>
    if h : x = y then .isTrue (by rw [h])
    else .isFalse (fun hc => h (Except.error.inj hc))
  | .error _, .ok _ => .isFalse (fun hc => Except.noConfusion hc)
  | .ok _, .error _ => .isFalse (fun hc => Except.noConfusion hc)
  | .ok x, .ok y =>
    if h : x = y then .isTrue (by rw [h])
    else .isFalse (fun hc => h (Except.ok.inj hc))

/-- Recognise an `InvalidRequest` result (used to pin down which error a
concrete request produces). -/
def errIsInvalidReq : Except ApiError Invoice → Bool
  | .error (.invalidReq _) => true
  | _ => false

/-! ### Basic list helpers -/

lemma le_foldr_max (x : Int) (l : List Int) (hx : x ∈ l) :
    x ≤ l.foldr max 0 := by
  induction l with
  | nil => cases hx
  | cons a t ih =>
    rcases List.mem_cons.mp hx with h | h
    · subst h; exact le_max_left _ _
    · exact le_trans (ih h) (le_max_right _ _)

lemma nodup_id_inj {l : List FoodItem}
    (hnd : (l.map (fun f => f.id)).Nodup) {f g : FoodItem}
    (hf : f ∈ l) (hg : g ∈ l) (hid : f.id = g.id) : f = g := by
  induction l with
  | nil => cases hf
  | cons a t ih =>
    rw [List.map_cons, List.nodup_cons] at hnd
    rcases List.mem_cons.mp hf with hf' | hf' <;>
      rcases List.mem_cons.mp hg with hg' | hg'
    · rw [hf', hg']
    · exfalso
      apply hnd.1
      have hmem : g.id ∈ t.map (fun f => f.id) :=
        List.mem_map_of_mem (fun f => f.id) hg'
      rw [← hf', hid]; exact hmem
    · exfalso
      apply hnd.1
      have hmem : f.id ∈ t.map (fun f => f.id) :=
        List.mem_map_of_mem (fun f => f.id) hf'
      rw [← hg', ← hid]; exact hmem
    · exact ih hnd.2 hf' hg'

/-- `find?` by primary key on a list of rows with pairwise-distinct ids
returns exactly the member row with that id. -/
lemma find?_id_of_mem {l : List FoodItem}
    (hnd : (l.map (fun f => f.id)).Nodup) {f : FoodItem} (hf : f ∈ l) :
    l.find? (fun g => g.id == f.id) = some f := by
  have hsome : (l.find? (fun g => g.id == f.id)).isSome := by
    rw [List.find?_isSome]; exact ⟨f, hf, by simp⟩
  rcases Option.isSome_iff_exists.mp hsome with ⟨g, hgf⟩
  have hgmem : g ∈ l := List.mem_of_find?_eq_some hgf
  have hgid : g.id = f.id := by simpa using List.find?_some hgf
  rw [hgf, nodup_id_inj hnd hgmem hf hgid]

lemma sumQ_nil (fid : Int) : sumQ [] fid = 0 := rfl

lemma sumQ_cons (line : OrderItemCreate) (rest : List OrderItemCreate) (fid : Int) :
    sumQ (line :: rest) fid =
      (if line.food_item_id = fid then line.quantity else 0) + sumQ rest fid := by
  by_cases h : line.food_item_id = fid <;>
    simp [sumQ, List.filter_cons, h]

lemma sumQ_eq_zero {items : List OrderItemCreate} {fid : Int}
    (h : ∀ l ∈ items, l.food_item_id ≠ fid) : sumQ items fid = 0 := by
  induction items with
  | nil => rfl
  | cons a t ih =>
    rw [sumQ_cons, if_neg (h a (List.mem_cons_self a t)), zero_add]
    exact ih (fun l hl => h l (List.mem_cons_of_mem a hl))

/-! ### `assignIds` -/

lemma assignIds_order_id {pend : List PendingItem} {oid iid : Int} :
    ∀ x ∈ assignIds oid iid pend, x.order_id = oid := by
  induction pend generalizing iid with
  | nil => intro x hx; cases hx
  | cons p ps ih =>
    intro x hx
    rcases List.mem_cons.mp hx with h | h
    · rw [h]
    · exact ih _ h

lemma assignIds_mem {pend : List PendingItem} {oid iid : Int} :
    ∀ x ∈ assignIds oid iid pend, ∃ p ∈ pend,
      x.food_item_id = p.food_item_id ∧ x.quantity = p.quantity ∧
      x.item_price = p.item_price ∧ x.total_price = p.total_price := by
  induction pend generalizing iid with
  | nil => intro x hx; cases hx
  | cons p ps ih =>
    intro x hx
    rcases List.mem_cons.mp hx with h | h
    · exact ⟨p, List.mem_cons_self p ps, by rw [h], by rw [h], by rw [h], by rw [h]⟩
    · rcases ih _ h with ⟨q, hq, hprops⟩
      exact ⟨q, List.mem_cons_of_mem p hq, hprops⟩

lemma assignIds_map_total_price (pend : List PendingItem) (oid iid : Int) :
    (assignIds oid iid pend).map (fun i => i.total_price) =
      pend.map (fun p => p.total_price) := by
  induction pend generalizing iid with
  | nil => rfl
  | cons p ps ih => simp [assignIds, ih]

/-! ### `mapOption` helpers -/

lemma mapOption_isSome {α β : Type} (g : α → Option β) (l : List α)
    (h : ∀ a ∈ l, (g a).isSome) : (mapOption g l).isSome := by
  induction l with
  | nil => rfl
  | cons a t ih =>
    rcases Option.isSome_iff_exists.mp (h a (List.mem_cons_self a t)) with ⟨b, hb⟩
    rcases Option.isSome_iff_exists.mp
      (ih (fun x hx => h x (List.mem_cons_of_mem a hx))) with ⟨r, hr⟩
    simp [mapOption, hb, hr]

lemma mapOption_mem {α β : Type} {g : α → Option β} {l : List α} {r : List β}
    (h : mapOption g l = some r) : ∀ x ∈ r, ∃ a ∈ l, g a = some x := by
  induction l generalizing r with
  | nil =>
    simp only [mapOption] at h
    cases h; intro x hx; cases hx
  | cons a t ih =>
    simp only [mapOption] at h
    rcases hga : g a with _ | b <;> rw [hga] at h
    · cases h
    · rcases hgt : mapOption g t with _ | rt <;> rw [hgt] at h
      · cases h
      · cases h
        intro x hx
        rcases List.mem_cons.mp hx with hxb | hxr
        · exact ⟨a, List.mem_cons_self a t, hxb ▸ hga⟩
        · rcases ih hgt x hxr with ⟨c, hc, hgc⟩
          exact ⟨c, List.mem_cons_of_mem a hc, hgc⟩

lemma mapOption_congr {α β : Type} {g g' : α → Option β} {l : List α}
    (h : ∀ a ∈ l, g a = g' a) : mapOption g l = mapOption g' l := by
  induction l with
  | nil => rfl
  | cons a t ih =>
    simp only [mapOption, h a (List.mem_cons_self a t),
      ih (fun x hx => h x (List.mem_cons_of_mem a hx))]

/-- A successful `mapOption` is a complete, order-preserving image: the
result has one element per input, and the k-th output comes from the k-th
input. -/
lemma mapOption_get {α β : Type} {g : α → Option β} {l : List α} {r : List β}
    (h : mapOption g l = some r) :
    r.length = l.length ∧
    ∀ k (hk : k < l.length) (hk' : k < r.length),
      g (l.get ⟨k, hk⟩) = some (r.get ⟨k, hk'⟩) := by
  induction l generalizing r with
  | nil =>
    simp only [mapOption] at h
    cases h
    exact ⟨rfl, fun k hk _ => absurd hk (by simp)⟩
  | cons a t ih =>
    simp only [mapOption] at h
    rcases hga : g a with _ | b <;> rw [hga] at h
    · cases h
    · rcases hgt : mapOption g t with _ | rt <;> rw [hgt] at h
      · cases h
      · cases h
        obtain ⟨hlen, hidx⟩ := ih hgt
        refine ⟨by simp [hlen], ?_⟩
        intro k hk hk'
        cases k with
        | zero => simpa using hga
        | succ n =>
          have hn : n < t.length := by simpa using hk
          have hn' : n < rt.length := by simpa using hk'
          simpa using hidx n hn hn'

/-! ### The validation loop

`sameButStock xs ys` says `ys` is `xs` with, possibly, different stock
values: same rows in the same positions, identical except for `stock`.
This is exactly what the in-request mutation `food.stock -= quantity`
can produce. -/

def sameButStock : List FoodItem → List FoodItem → Prop
  | [], [] => True
  | f :: fs, g :: gs =>
    (g.id = f.id ∧ g.name = f.name ∧ g.price = f.price ∧ g.category = f.category) ∧
      sameButStock fs gs
  | _, _ => False

lemma sameButStock_refl (l : List FoodItem) : sameButStock l l := by
  induction l with
  | nil => trivial
  | cons a t ih => exact ⟨⟨rfl, rfl, rfl, rfl⟩, ih⟩

lemma sameButStock_trans {xs ys zs : List FoodItem}
    (h1 : sameButStock xs ys) (h2 : sameButStock ys zs) : sameButStock xs zs := by
  induction xs generalizing ys zs with
  | nil =>
    cases ys with
    | nil => cases zs with
      | nil => trivial
      | cons c cs => exact absurd h2 (by simp [sameButStock])
    | cons b bs => exact absurd h1 (by simp [sameButStock])
  | cons a as ih =>
    cases ys with
    | nil => exact absurd h1 (by simp [sameButStock])
    | cons b bs =>
      cases zs with
      | nil => exact absurd h2 (by simp [sameButStock])
      | cons c cs =>
        obtain ⟨⟨hid1, hn1, hp1, hc1⟩, h1'⟩ := h1
        obtain ⟨⟨hid2, hn2, hp2, hc2⟩, h2'⟩ := h2
        exact ⟨⟨hid2.trans hid1, hn2.trans hn1, hp2.trans hp1, hc2.trans hc1⟩,
          ih h1' h2'⟩

lemma sameButStock_setStock (l : List FoodItem) (fid newStock : Int) :
    sameButStock l (setStock l fid newStock) := by
  induction l with
  | nil => trivial
  | cons a t ih =>
    refine ⟨?_, ih⟩
    by_cases h : (a.id == fid) = true <;> simp [setStock, h]

lemma sameButStock_mem {xs ys : List FoodItem} (h : sameButStock xs ys)
    {g : FoodItem} (hg : g ∈ ys) :
    ∃ f ∈ xs, g.id = f.id ∧ g.name = f.name ∧ g.price = f.price := by
  induction xs generalizing ys with
  | nil =>
    cases ys with
    | nil => cases hg
    | cons b bs => exact absurd h (by simp [sameButStock])
  | cons a as ih =>
    cases ys with
    | nil => exact absurd h (by simp [sameButStock])
    | cons b bs =>
      obtain ⟨⟨hid, hn, hp, _⟩, h'⟩ := h
      rcases List.mem_cons.mp hg with hgb | hgbs
      · exact ⟨a, List.mem_cons_self a as, hgb ▸ hid, hgb ▸ hn, hgb ▸ hp⟩
      · rcases ih h' hgbs with ⟨f, hf, hprops⟩
        exact ⟨f, List.mem_cons_of_mem a hf, hprops⟩

/-- What a successful run of the validation loop guarantees: the running
rows differ from the initial ones only in stock, and every accumulated
pending line item records a subtotal equal to quantity times its price
snapshot, the snapshot being the price of the matching initial row. -/
lemma processItems_ok_spec {items : List OrderItemCreate}
    {foods foods' : List FoodItem} {total total' : ℚ}
    {acc acc' : List PendingItem}
    (h : processItems foods total acc items = .ok (foods', total', acc')) :
    sameButStock foods foods' ∧
    ∃ pend, acc' = acc ++ pend ∧
      total' = total + (pend.map (fun p => p.total_price)).sum ∧
      ∀ p ∈ pend, p.total_price = p.item_price * (p.quantity : ℚ) ∧
        ∃ f ∈ foods, f.id = p.food_item_id ∧ p.item_price = f.price := by
  induction items generalizing foods total acc with
  | nil =>
    simp only [processItems, Except.ok.injEq, Prod.mk.injEq] at h
    obtain ⟨hf, ht, ha⟩ := h
    subst hf; subst ht; subst ha
    exact ⟨sameButStock_refl _,
      ⟨[], by simp, by simp, fun p hp => absurd hp (by simp)⟩⟩
  | cons line rest ih =>
    rcases hfind : foods.find? (fun f => f.id == line.food_item_id) with _ | food
    · simp only [processItems, hfind] at h
      exact Except.noConfusion h
    · by_cases hs : food.stock ≤ 0
      · simp only [processItems, hfind, if_pos hs] at h
        exact Except.noConfusion h
      · by_cases hq : line.quantity > food.stock
        · simp only [processItems, hfind, if_neg hs, if_pos hq] at h
          exact Except.noConfusion h
        · simp only [processItems, hfind, if_neg hs, if_neg hq] at h
          obtain ⟨hvar, pend', hacc, htot, hprops⟩ := ih h
          have hsv : sameButStock foods
              (setStock foods food.id (food.stock - line.quantity)) :=
            sameButStock_setStock _ _ _
          refine ⟨sameButStock_trans hsv hvar,
            ⟨line.food_item_id, line.quantity, food.price,
              food.price * (line.quantity : ℚ)⟩ :: pend', ?_, ?_, ?_⟩
          · rw [hacc, List.append_assoc]; rfl
          · rw [htot]; simp [List.map_cons, List.sum_cons]; ring
          · intro p hp
            rcases List.mem_cons.mp hp with hp0 | hp'
            · subst hp0
              refine ⟨rfl, food, List.mem_of_find?_eq_some hfind, ?_, rfl⟩
              have hbeq := List.find?_some hfind
              simpa using hbeq
            · obtain ⟨hsub, f, hfm, hfid, hfp⟩ := hprops p hp'
              obtain ⟨f0, hf0, hid0, _, hpr0⟩ := sameButStock_mem hsv hfm
              exact ⟨hsub, f0, hf0, by rw [← hid0, hfid], by rw [← hpr0, hfp]⟩

/-- A successful run of the validation loop started from rows with
non-negative stock leaves every row's stock non-negative: each passed line
checked its quantity against the running stock before decrementing. -/
lemma processItems_ok_nonneg {items : List OrderItemCreate}
    {foods foods' : List FoodItem} {total total' : ℚ}
    {acc acc' : List PendingItem}
    (h0 : ∀ g ∈ foods, 0 ≤ g.stock)
    (h : processItems foods total acc items = .ok (foods', total', acc')) :
    ∀ g ∈ foods', 0 ≤ g.stock := by
  induction items generalizing foods total acc with
  | nil =>
    simp only [processItems, Except.ok.injEq, Prod.mk.injEq] at h
    exact h.1 ▸ h0
  | cons line rest ih =>
    rcases hfind : foods.find? (fun f => f.id == line.food_item_id) with _ | food
    · simp only [processItems, hfind] at h
      exact Except.noConfusion h
    · by_cases hs : food.stock ≤ 0
      · simp only [processItems, hfind, if_pos hs] at h
        exact Except.noConfusion h
      · by_cases hq : line.quantity > food.stock
        · simp only [processItems, hfind, if_neg hs, if_pos hq] at h
          exact Except.noConfusion h
        · simp only [processItems, hfind, if_neg hs, if_neg hq] at h
          refine ih ?_ h
          intro g hg
          rcases List.mem_map.mp hg with ⟨f, hf, hgf⟩
          by_cases hb : (f.id == food.id) = true
          · rw [← hgf, if_pos hb]
            have : line.quantity ≤ food.stock := not_lt.mp hq
            simpa using sub_nonneg.mpr this
          · rw [← hgf, if_neg hb]
            exact h0 f hf

lemma setStock_map_id (l : List FoodItem) (fid s : Int) :
    (setStock l fid s).map (fun f => f.id) = l.map (fun f => f.id) := by
  induction l with
  | nil => rfl
  | cons a t ih =>
    show ((if (a.id == fid) = true then { a with stock := s } else a) ::
        setStock t fid s).map (fun f => f.id) = _
    rw [List.map_cons, List.map_cons, ih]
    congr 1
    by_cases hb : (a.id == fid) = true
    · rw [if_pos hb]
    · rw [if_neg hb]

/-- Exact stock accounting for a successful loop over rows with pairwise
distinct ids: each row's final stock is its initial stock minus the summed
quantity the request orders for it, and for every row some request line
references, that difference is non-negative (the last line referencing the
row checked its quantity against the remaining running stock). -/
lemma processItems_ok_stocks {items : List OrderItemCreate}
    {foods foods' : List FoodItem} {total total' : ℚ}
    {acc acc' : List PendingItem}
    (hnd : (foods.map (fun f => f.id)).Nodup)
    (h : processItems foods total acc items = .ok (foods', total', acc')) :
    foods' = foods.map (fun f => { f with stock := f.stock - sumQ items f.id }) ∧
    ∀ f ∈ foods, (∃ l ∈ items, l.food_item_id = f.id) →
      0 ≤ f.stock - sumQ items f.id := by
  induction items generalizing foods total acc with
  | nil =>
    simp only [processItems, Except.ok.injEq, Prod.mk.injEq] at h
    constructor
    · rw [← h.1]
      refine ((List.map_congr_left ?_).trans (List.map_id foods)).symm
      intro f _
      show ({ f with stock := f.stock - sumQ [] f.id } : FoodItem) = id f
      rw [sumQ_nil, sub_zero]
      exact rfl
    · intro f _ ⟨l, hl, _⟩
      cases hl
  | cons line rest ih =>
    rcases hfind : foods.find? (fun f => f.id == line.food_item_id) with _ | food
    · simp only [processItems, hfind] at h
      exact Except.noConfusion h
    · by_cases hs : food.stock ≤ 0
      · simp only [processItems, hfind, if_pos hs] at h
        exact Except.noConfusion h
      · by_cases hq : line.quantity > food.stock
        · simp only [processItems, hfind, if_neg hs, if_pos hq] at h
          exact Except.noConfusion h
        · simp only [processItems, hfind, if_neg hs, if_neg hq] at h
          have hfood_mem : food ∈ foods := List.mem_of_find?_eq_some hfind
          have hfood_id : food.id = line.food_item_id := by
            simpa using List.find?_some hfind
          have hnd1 : ((setStock foods food.id (food.stock - line.quantity)).map
              (fun f => f.id)).Nodup := by
            rw [setStock_map_id]; exact hnd
          obtain ⟨hmap, hnonneg⟩ := ih hnd1 h
          have hq' : line.quantity ≤ food.stock := not_lt.mp hq
          constructor
          · rw [hmap, setStock, List.map_map]
            refine List.map_congr_left ?_
            intro f hf
            by_cases hb : (f.id == food.id) = true
            · have hfid : f.id = food.id := by simpa using hb
              have hff : f = food := nodup_id_inj hnd hf hfood_mem hfid
              simp only [Function.comp, if_pos hb]
              rw [sumQ_cons, if_pos (by rw [hfid, ← hfood_id])]
              rw [← hff]
              congr 1
              rw [hff]
              ring
            · have hfid : ¬ f.id = food.id := by simpa using hb
              simp only [Function.comp, if_neg hb]
              rw [sumQ_cons, if_neg (fun hlf => hfid (by rw [← hlf, hfood_id])),
                zero_add]
          · intro f hf ⟨l, hl, hlid⟩
            by_cases hc : f.id = food.id
            · have hff : f = food := nodup_id_inj hnd hf hfood_mem hc
              rw [sumQ_cons, if_pos (by rw [hc, ← hfood_id])]
              have hf1mem : ({ food with stock := food.stock - line.quantity } :
                  FoodItem) ∈ setStock foods food.id (food.stock - line.quantity) := by
                refine List.mem_map.mpr ⟨food, hfood_mem, ?_⟩
                rw [if_pos (by simp)]
              by_cases hrest : ∃ l' ∈ rest, l'.food_item_id = f.id
              · rcases hrest with ⟨l', hl', hlid'⟩
                have := hnonneg _ hf1mem ⟨l', hl', by simpa [hc] using hlid'⟩
                simp only at this
                rw [hff]
                have heq : food.stock - (line.quantity + sumQ rest food.id)
                    = food.stock - line.quantity - sumQ rest food.id := by ring
                rw [heq]
                simpa [hc] using this
              · have hz : sumQ rest f.id = 0 :=
                  sumQ_eq_zero (fun l' hl' hlid' => hrest ⟨l', hl', hlid'⟩)
                rw [hff] at hz ⊢
                rw [hz, add_zero]
                linarith
            · have hlrest : l ∈ rest := by
                rcases List.mem_cons.mp hl with hline | hrest'
                · exact absurd (by rw [← hlid, hline, hfood_id]) hc
                · exact hrest'
              rw [sumQ_cons, if_neg (fun hlf => hc (by rw [← hlf, hfood_id])),
                zero_add]
              have hfmem1 : f ∈ setStock foods food.id (food.stock - line.quantity) := by
                refine List.mem_map.mpr ⟨f, hf, ?_⟩
                rw [if_neg (by simpa using hc)]
              exact hnonneg f hfmem1 ⟨l, hlrest, hlid⟩

/-- A line whose isolated check fails makes the loop fail with exactly that
error, whatever comes after it. -/
lemma processItems_cons_err {foods : List FoodItem} {total : ℚ}
    {acc : List PendingItem} {line : OrderItemCreate}
    {rest : List OrderItemCreate} {e : ApiError}
    (h : lineCheck foods line = some e) :
    processItems foods total acc (line :: rest) = .error e := by
  rcases hfind : foods.find? (fun f => f.id == line.food_item_id) with _ | food
  · simp only [lineCheck, hfind, Option.some.injEq] at h
    simp only [processItems, hfind, h]
  · by_cases hs : food.stock ≤ 0
    · simp only [lineCheck, hfind, if_pos hs, Option.some.injEq] at h
      simp only [processItems, hfind, if_pos hs, h]
    · by_cases hq : line.quantity > food.stock
      · simp only [lineCheck, hfind, if_neg hs, if_pos hq, Option.some.injEq] at h
        simp only [processItems, hfind, if_neg hs, if_pos hq, h]
      · simp only [lineCheck, hfind, if_neg hs, if_neg hq] at h
        exact Option.noConfusion h

/-- The loop treats a request as its prefix followed by the remainder: the
lines are validated strictly in input order. -/
lemma processItems_append {pre post : List OrderItemCreate}
    {foods : List FoodItem} {total : ℚ} {acc : List PendingItem} :
    processItems foods total acc (pre ++ post) =
      match processItems foods total acc pre with
      | .ok (f1, t1, a1) => processItems f1 t1 a1 post
      | .error e => .error e := by
  induction pre generalizing foods total acc with
  | nil => rfl
  | cons line rest ih =>
    rcases hfind : foods.find? (fun f => f.id == line.food_item_id) with _ | food
    · simp only [List.cons_append, processItems, hfind]
    · by_cases hs : food.stock ≤ 0
      · simp only [List.cons_append, processItems, hfind, if_pos hs]
      · by_cases hq : line.quantity > food.stock
        · simp only [List.cons_append, processItems, hfind, if_neg hs, if_pos hq]
        · simp only [List.cons_append, processItems, hfind, if_neg hs, if_neg hq]
          exact ih

/-! ### Primary-key freshness and commit helpers -/

lemma order_id_lt_next {st : Store} {o : Order} (h : o ∈ st.orders) :
    o.id < nextOrderId st := by
  have := le_foldr_max o.id (st.orders.map (fun x => x.id))
    (List.mem_map_of_mem (fun x => x.id) h)
  rw [nextOrderId]
  omega

/-- Every food row keeps a representative with its id across the stock
commit (the commit only overwrites fetched rows with their mutated
versions, which carry the same primary key). -/
lemma commitStocks_id_surj (updated : List FoodItem) {storeFoods : List FoodItem}
    {f : FoodItem} (hf : f ∈ storeFoods) :
    ∃ g ∈ commitStocks storeFoods updated, g.id = f.id := by
  rcases hfind : updated.find? (fun g => g.id == f.id) with _ | g
  · refine ⟨f, List.mem_map.mpr ⟨f, hf, ?_⟩, rfl⟩
    rw [hfind]
  · refine ⟨g, List.mem_map.mpr ⟨f, hf, ?_⟩, by simpa using List.find?_some hfind⟩
    rw [hfind]

lemma commitStocks_mem {storeFoods updated : List FoodItem}
    {g : FoodItem} (hg : g ∈ commitStocks storeFoods updated) :
    g ∈ updated ∨ g ∈ storeFoods := by
  rcases List.mem_map.mp hg with ⟨f, hf, hgf⟩
  rcases hfind : updated.find? (fun x => x.id == f.id) with _ | x <;>
    rw [hfind] at hgf
  · exact Or.inr (hgf ▸ hf)
  · exact Or.inl (hgf ▸ List.mem_of_find?_eq_some hfind)

/-- The re-read right after the commit finds the just-inserted order row:
its autoincremented id is fresh, so no earlier row shadows it. -/
lemma committed_find_order (st : Store) (now : Nat) (req : OrderCreate)
    (foods1 : List FoodItem) (total : ℚ) (pend : List PendingItem) :
    (committedStore st now req foods1 total pend).orders.find?
        (fun o => o.id == nextOrderId st) = some (newOrderRow st now req total) := by
  show (st.orders ++ [newOrderRow st now req total]).find?
      (fun o => o.id == nextOrderId st) = _
  rw [List.find?_append]
  have h1 : st.orders.find? (fun o => o.id == nextOrderId st) = none := by
    rw [List.find?_eq_none]
    intro o ho
    simp only [beq_iff_eq]
    exact ne_of_lt (order_id_lt_next ho)
  rw [h1]
  simp [newOrderRow, List.find?_cons]

/-- After the commit the invoice re-read always succeeds, provided every
pre-existing line item belongs to an existing order (the `order_id` foreign
key): the user was found before, the order's line items are exactly the new
ones, and each of them references a food row that survived the commit. -/
lemma committed_invoice_isSome (now : Nat) {st : Store} {req : OrderCreate}
    {u : User} {foods1 : List FoodItem} {total : ℚ} {pend : List PendingItem}
    (hwf : ∀ i ∈ st.order_items, ∃ o ∈ st.orders, i.order_id = o.id)
    (hu : st.users.find? (fun x => x.id == req.user_id) = some u)
    (hp : processItems (fetchedFoods st req) 0 [] req.items
            = .ok (foods1, total, pend)) :
    (invoiceOfOrder (committedStore st now req foods1 total pend)
        (newOrderRow st now req total)).isSome := by
  have hufind : (committedStore st now req foods1 total pend).users.find?
      (fun x => x.id == (newOrderRow st now req total).user_id) = some u := hu
  have hfilter : (committedStore st now req foods1 total pend).order_items.filter
      (fun i => i.order_id == (newOrderRow st now req total).id)
      = assignIds (nextOrderId st) (nextOrderItemId st) pend := by
    show (st.order_items ++ assignIds (nextOrderId st) (nextOrderItemId st) pend).filter
        (fun i => i.order_id == nextOrderId st) = _
    rw [List.filter_append]
    have hold : st.order_items.filter (fun i => i.order_id == nextOrderId st) = [] := by
      rw [List.filter_eq_nil_iff]
      intro i hi
      rcases hwf i hi with ⟨o, ho, hio⟩
      simp only [beq_iff_eq]
      rw [hio]
      exact ne_of_lt (order_id_lt_next ho)
    have hnew : (assignIds (nextOrderId st) (nextOrderItemId st) pend).filter
        (fun i => i.order_id == nextOrderId st)
        = assignIds (nextOrderId st) (nextOrderItemId st) pend := by
      rw [List.filter_eq_self]
      intro i hi
      simp only [beq_iff_eq]
      exact assignIds_order_id i hi
    rw [hold, hnew, List.nil_append]
  have hlines : (mapOption (fun i =>
      ((committedStore st now req foods1 total pend).food_items.find?
          (fun f => f.id == i.food_item_id)).map
        (fun f => InvoiceItem.mk f.name i.quantity i.item_price i.total_price))
      (assignIds (nextOrderId st) (nextOrderItemId st) pend)).isSome := by
    refine mapOption_isSome _ _ ?_
    intro i hi
    rcases assignIds_mem i hi with ⟨p, hpmem, hifid, _, _, _⟩
    obtain ⟨_, pend', hacc, _, hprops⟩ := processItems_ok_spec hp
    have hpmem' : p ∈ pend' := by
      rw [List.nil_append] at hacc
      exact hacc ▸ hpmem
    obtain ⟨_, f, hfmem, hfid, _⟩ := hprops p hpmem'
    have hfst : f ∈ st.food_items := (List.mem_filter.mp hfmem).1
    obtain ⟨g, hg, hgid⟩ :=
      commitStocks_id_surj foods1 hfst
    have hfindSome : ((committedStore st now req foods1 total pend).food_items.find?
        (fun f => f.id == i.food_item_id)).isSome := by
      rw [List.find?_isSome]
      exact ⟨g, hg, by simp [hgid, hfid, hifid]⟩
    rcases Option.isSome_iff_exists.mp hfindSome with ⟨g', hg'⟩
    rw [hg']
    rfl
  rw [invoiceOfOrder, hufind]
  simp only
  rw [hfilter]
  rcases Option.isSome_iff_exists.mp hlines with ⟨lines, hl⟩
  rw [hl]
  rfl

/-- Case analysis on `create_order`: either the store is returned untouched,
or the request passed validation and the store is the committed one, whose
new line items all carry positive quantity. -/
lemma create_order_shape (st : Store) (now : Nat) (req : OrderCreate) :
    (create_order st now req).1 = st ∨
    ∃ foods1 total pend,
      processItems (fetchedFoods st req) 0 [] req.items = .ok (foods1, total, pend) ∧
      (∀ p ∈ pend, 0 < p.quantity) ∧
      (create_order st now req).1 = committedStore st now req foods1 total pend := by
  rcases hu : st.users.find? (fun x => x.id == req.user_id) with _ | u
  · left; simp [create_order, hu]
  · by_cases he : req.items.isEmpty = true
    · left; simp [create_order, hu, he]
    · rcases hp : processItems (fetchedFoods st req) 0 [] req.items with e | ⟨foods1, total, pend⟩
      · left; simp [create_order, hu, he, hp]
      · by_cases hall : pend.all (fun p => decide (0 < p.quantity)) = true
        · right
          refine ⟨foods1, total, pend, rfl, ?_, ?_⟩
          · intro p hpm
            have := List.all_eq_true.mp hall p hpm
            exact of_decide_eq_true this
          · simp only [create_order, hu, he, hp, if_pos hall]
            rcases hfo : (committedStore st now req foods1 total pend).orders.find?
                (fun o => o.id == nextOrderId st) with _ | o
            · simp [create_order, hu, he, hp, if_pos hall, hfo]
            · rcases hio : invoiceOfOrder (committedStore st now req foods1 total pend) o
                  with _ | inv <;>
                simp [create_order, hu, he, hp, if_pos hall, hfo, hio]
        · left; simp [create_order, hu, he, hp, hall]

/-- What a successful `create_order` implies: the user was found, the item
list was non-empty, the validation loop succeeded, every pending line item
passed the positive-quantity constraint, and the returned store is the
committed one. -/
lemma create_order_ok_spec {st st' : Store} {now : Nat} {req : OrderCreate}
    {inv : Invoice} (h : create_order st now req = (st', Except.ok inv)) :
    ∃ u foods1 total pend,
      st.users.find? (fun x => x.id == req.user_id) = some u ∧
      req.items.isEmpty = false ∧
      processItems (fetchedFoods st req) 0 [] req.items = .ok (foods1, total, pend) ∧
      (∀ p ∈ pend, 0 < p.quantity) ∧
      st' = committedStore st now req foods1 total pend := by
  rcases hu : st.users.find? (fun x => x.id == req.user_id) with _ | u
  · rw [create_order, hu] at h
    simp only [Prod.mk.injEq] at h
    exact Except.noConfusion h.2
  · by_cases he : req.items.isEmpty = true
    · rw [create_order, hu] at h
      simp only [if_pos he, Prod.mk.injEq] at h
      exact Except.noConfusion h.2
    · rcases hp : processItems (fetchedFoods st req) 0 [] req.items
          with e | ⟨foods1, total, pend⟩
      · rw [create_order, hu] at h
        simp only [if_neg he, hp, Prod.mk.injEq] at h
        exact Except.noConfusion h.2
      · by_cases hall : pend.all (fun p => decide (0 < p.quantity)) = true
        · refine ⟨u, foods1, total, pend, hu, Bool.eq_false_iff.mpr he, rfl, ?_, ?_⟩
          · intro p hpm
            exact of_decide_eq_true (List.all_eq_true.mp hall p hpm)
          · rw [create_order, hu] at h
            simp only [if_neg he, hp, if_pos hall] at h
            rcases hfo : (committedStore st now req foods1 total pend).orders.find?
                (fun o => o.id == nextOrderId st) with _ | o <;> simp only [hfo] at h
            · simp only [Prod.mk.injEq] at h
              exact Except.noConfusion h.2
            · rcases hio : invoiceOfOrder (committedStore st now req foods1 total pend) o
                  with _ | inv0 <;> simp only [hio] at h <;>
                simp only [Prod.mk.injEq] at h
              · exact Except.noConfusion h.2
              · exact h.1.symm
        · rw [create_order, hu] at h
          simp only [if_neg he, hp, if_neg hall, Prod.mk.injEq] at h
          exact Except.noConfusion h.2

/-- Any failing `create_order` leaves the persisted store exactly as it
was, provided every pre-existing line item belongs to an existing order:
every validation error returns before the commit, and the only error paths
after the commit — the invoice re-read failing — are unreachable. -/
lemma create_order_err_frame {st st' : Store} {now : Nat} {req : OrderCreate}
    {e : ApiError}
    (hwf : ∀ i ∈ st.order_items, ∃ o ∈ st.orders, i.order_id = o.id)
    (h : create_order st now req = (st', Except.error e)) : st' = st := by
  rcases hu : st.users.find? (fun x => x.id == req.user_id) with _ | u
  · rw [create_order, hu] at h
    exact (Prod.mk.injEq _ _ _ _ ▸ h).1.symm
  · by_cases he : req.items.isEmpty = true
    · rw [create_order, hu] at h
      rw [if_pos he] at h
      exact (Prod.mk.injEq _ _ _ _ ▸ h).1.symm
    · rcases hp : processItems (fetchedFoods st req) 0 [] req.items
          with e0 | ⟨foods1, total, pend⟩
      · rw [create_order, hu] at h
        simp only [if_neg he, hp] at h
        exact (Prod.mk.injEq _ _ _ _ ▸ h).1.symm
      · by_cases hall : pend.all (fun p => decide (0 < p.quantity)) = true
        · rw [create_order, hu] at h
          simp only [if_neg he, hp, if_pos hall] at h
          simp only [committed_find_order] at h
          have hinv := committed_invoice_isSome now hwf hu hp
          rcases Option.isSome_iff_exists.mp hinv with ⟨inv0, hio⟩
          simp only [hio] at h
          simp only [Prod.mk.injEq] at h
          exact Except.noConfusion h.2
        · rw [create_order, hu] at h
          simp only [if_neg he, hp, if_neg hall] at h
          exact (Prod.mk.injEq _ _ _ _ ▸ h).1.symm

/-! ### Concrete fixtures used by the witness theorems -/

def wUser : User :=
  { id := 1, name := "Alice", email := "alice@example.com", password := "pw",
    role := "customer" }

def wTea : FoodItem :=
  { id := 1, name := "Tea", price := 10, category := "Drink", stock := 5 }

def wCake : FoodItem :=
  { id := 2, name := "Cake", price := 3, category := "Snack", stock := 4 }

def wStore : Store :=
  { users := [wUser], food_items := [wTea, wCake], orders := [], order_items := [] }

/-! ### Claim theorems -/

/-- C3: if order creation fails for any reason, no Order row is created, no
OrderItem rows are created, and no food item's persisted stock changes —
the store after the failing request is exactly the store before it.  Stated
under the order_id foreign-key integrity of the pre-existing line items,
which the schema enforces. -/
theorem order_creation_failure_leaves_store_unchanged
    (st : Store) (now : Nat) (req : OrderCreate)
    (hwf : ∀ i ∈ st.order_items, ∃ o ∈ st.orders, i.order_id = o.id)
    (hfail : (create_order st now req).2.isOk = false) :
    (create_order st now req).1 = st := by
  rcases hres : create_order st now req with ⟨st', r⟩
  cases r with
  | ok inv =>
    rw [hres] at hfail
    simp [Except.isOk, Except.toBool] at hfail
  | error e => exact create_order_err_frame hwf hres

theorem order_creation_failure_witness :
    (∀ i ∈ wStore.order_items, ∃ o ∈ wStore.orders, i.order_id = o.id) ∧
    (create_order wStore 0 ⟨1, [⟨99, 1⟩]⟩).2.isOk = false ∧
    (create_order wStore 0 ⟨1, [⟨99, 1⟩]⟩).1 = wStore :=
  ⟨by decide, by decide,
    order_creation_failure_leaves_store_unchanged wStore 0 ⟨1, [⟨99, 1⟩]⟩
      (by decide) (by decide)⟩

/-- C1: for every successful order creation, the persisted order's
`total_amount` equals the sum of its line items' `total_price` values, each
line item's `total_price` equals its quantity times the snapshotted
`item_price`, and that snapshot equals the referenced food item's unit
price in the store at order time. -/
theorem order_total_is_sum_of_line_subtotals
    (st : Store) (now : Nat) (req : OrderCreate)
    (hok : (create_order st now req).2.isOk = true) :
    ∃ o newIts,
      (create_order st now req).1.orders = st.orders ++ [o] ∧
      (create_order st now req).1.order_items = st.order_items ++ newIts ∧
      (∀ i ∈ newIts, i.order_id = o.id) ∧
      o.total_amount = (newIts.map (fun i => i.total_price)).sum ∧
      ∀ i ∈ newIts, i.total_price = i.item_price * (i.quantity : ℚ) ∧
        ∃ f ∈ st.food_items, f.id = i.food_item_id ∧ i.item_price = f.price := by
  rcases hres : create_order st now req with ⟨st', r⟩
  cases r with
  | error e =>
    rw [hres] at hok
    simp [Except.isOk, Except.toBool] at hok
  | ok inv =>
    obtain ⟨u, foods1, total, pend, _, _, hp, _, hst'⟩ := create_order_ok_spec hres
    obtain ⟨_, pend', hacc, htot, hprops⟩ := processItems_ok_spec hp
    rw [List.nil_append] at hacc
    subst hacc
    refine ⟨newOrderRow st now req total,
      assignIds (nextOrderId st) (nextOrderItemId st) pend, ?_, ?_, ?_, ?_, ?_⟩
    · rw [hst']; rfl
    · rw [hst']; rfl
    · intro i hi
      rw [assignIds_order_id i hi]; rfl
    · show total = _
      rw [assignIds_map_total_price, htot, zero_add]
    · intro i hi
      rcases assignIds_mem i hi with ⟨p, hpmem, hfid, hq, hip, htp⟩
      obtain ⟨hsub, f, hfmem, hfidp, hipf⟩ := hprops p hpmem
      refine ⟨by rw [htp, hip, hq, hsub], f, (List.mem_filter.mp hfmem).1, ?_, ?_⟩
      · rw [hfid, hfidp]
      · rw [hip, hipf]

lemma contains_true_iff (l : List Int) (a : Int) : l.contains a = true ↔ a ∈ l := by
  rw [List.contains]; exact List.elem_iff

lemma fetched_nodup {st : Store} {req : OrderCreate}
    (hnd : (st.food_items.map (fun f => f.id)).Nodup) :
    ((fetchedFoods st req).map (fun f => f.id)).Nodup :=
  List.Nodup.sublist (List.Sublist.map _ (List.filter_sublist _)) hnd

lemma mem_fetched {st : Store} {req : OrderCreate} {f : FoodItem}
    (hf : f ∈ st.food_items) (href : ∃ l ∈ req.items, l.food_item_id = f.id) :
    f ∈ fetchedFoods st req := by
  refine List.mem_filter.mpr ⟨hf, ?_⟩
  rcases href with ⟨l, hl, hlid⟩
  exact (contains_true_iff _ _).mpr
    (hlid ▸ List.mem_map_of_mem (fun i => i.food_item_id) hl)

theorem order_total_witness :
    (create_order wStore 0 ⟨1, [⟨1, 3⟩, ⟨2, 2⟩]⟩).2.isOk = true ∧
    ∃ o newIts,
      (create_order wStore 0 ⟨1, [⟨1, 3⟩, ⟨2, 2⟩]⟩).1.orders = wStore.orders ++ [o] ∧
      (create_order wStore 0 ⟨1, [⟨1, 3⟩, ⟨2, 2⟩]⟩).1.order_items
        = wStore.order_items ++ newIts ∧
      (∀ i ∈ newIts, i.order_id = o.id) ∧
      o.total_amount = (newIts.map (fun i => i.total_price)).sum ∧
      ∀ i ∈ newIts, i.total_price = i.item_price * (i.quantity : ℚ) ∧
        ∃ f ∈ wStore.food_items, f.id = i.food_item_id ∧ i.item_price = f.price :=
  ⟨by decide,
    order_total_is_sum_of_line_subtotals wStore 0 ⟨1, [⟨1, 3⟩, ⟨2, 2⟩]⟩ (by decide)⟩

/-- C2: quantity checks run against the running, already-decremented
in-request stock, so a request (in particular one with several lines for
the same food item) succeeds only if, for every referenced food item, the
summed ordered quantity does not exceed that item's stock at the start of
the request.  Stated for stores whose food ids are pairwise distinct (the
primary-key constraint). -/
theorem joint_lines_cannot_exceed_initial_stock
    (st : Store) (now : Nat) (req : OrderCreate)
    (hnd : (st.food_items.map (fun f => f.id)).Nodup)
    (hok : (create_order st now req).2.isOk = true) :
    ∀ f ∈ st.food_items, (∃ l ∈ req.items, l.food_item_id = f.id) →
      sumQ req.items f.id ≤ f.stock := by
  rcases hres : create_order st now req with ⟨st', r⟩
  cases r with
  | error e =>
    rw [hres] at hok
    simp [Except.isOk, Except.toBool] at hok
  | ok inv =>
    obtain ⟨u, foods1, total, pend, _, _, hp, _, _⟩ := create_order_ok_spec hres
    obtain ⟨_, hnonneg⟩ := processItems_ok_stocks (fetched_nodup hnd) hp
    intro f hf href
    have := hnonneg f (mem_fetched hf href) href
    linarith

def wReqJoint : OrderCreate := ⟨1, [⟨1, 2⟩, ⟨1, 3⟩]⟩

theorem joint_lines_witness :
    (wStore.food_items.map (fun f => f.id)).Nodup ∧
    (create_order wStore 0 wReqJoint).2.isOk = true ∧
    ∀ f ∈ wStore.food_items,
      (∃ l ∈ wReqJoint.items, l.food_item_id = f.id) →
      sumQ wReqJoint.items f.id ≤ f.stock :=
  ⟨by decide, by decide,
    joint_lines_cannot_exceed_initial_stock wStore 0 wReqJoint
      (by decide) (by decide)⟩

/-- C5: order creation never persists a line item with zero or negative
quantity — the database CHECK constraint rejects such an insert at commit —
so the positivity of all persisted quantities is preserved by every
order-creation request, successful or not. -/
theorem persisted_quantities_positive
    (st : Store) (now : Nat) (req : OrderCreate)
    (hprev : ∀ i ∈ st.order_items, 0 < i.quantity) :
    ∀ i ∈ (create_order st now req).1.order_items, 0 < i.quantity := by
  rcases create_order_shape st now req with hsame | ⟨foods1, total, pend, hp, hpos, hcom⟩
  · rw [hsame]; exact hprev
  · rw [hcom]
    intro i hi
    rcases List.mem_append.mp hi with hold | hnew
    · exact hprev i hold
    · rcases assignIds_mem i hnew with ⟨p, hpm, _, hq, _, _⟩
      rw [hq]; exact hpos p hpm

theorem persisted_quantities_witness :
    (∀ i ∈ wStore.order_items, 0 < i.quantity) ∧
    ∀ i ∈ (create_order wStore 0 ⟨1, [⟨1, 0⟩]⟩).1.order_items, 0 < i.quantity :=
  ⟨by decide, persisted_quantities_positive wStore 0 ⟨1, [⟨1, 0⟩]⟩ (by decide)⟩

/-- C6: after a successful order creation, every food item's stock drops by
exactly the total quantity the request ordered for it — so items the order
does not reference are unchanged in all fields.  Stated for stores whose
food ids are pairwise distinct (the primary-key constraint). -/
theorem successful_order_stock_frame
    (st : Store) (now : Nat) (req : OrderCreate)
    (hnd : (st.food_items.map (fun f => f.id)).Nodup)
    (hok : (create_order st now req).2.isOk = true) :
    (create_order st now req).1.food_items
      = st.food_items.map
          (fun f => { f with stock := f.stock - sumQ req.items f.id }) ∧
    ∀ f ∈ st.food_items, (∀ l ∈ req.items, l.food_item_id ≠ f.id) →
      f ∈ (create_order st now req).1.food_items := by
  have hmain : (create_order st now req).1.food_items
      = st.food_items.map
          (fun f => { f with stock := f.stock - sumQ req.items f.id }) := by
    rcases hres : create_order st now req with ⟨st', r⟩
    cases r with
    | error e =>
      rw [hres] at hok
      simp [Except.isOk, Except.toBool] at hok
    | ok inv =>
      obtain ⟨u, foods1, total, pend, _, _, hp, _, hst'⟩ := create_order_ok_spec hres
      obtain ⟨hmap, _⟩ := processItems_ok_stocks (fetched_nodup hnd) hp
      show st'.food_items = _
      rw [hst']
      show commitStocks st.food_items foods1 = _
      rw [hmap, commitStocks]
      refine List.map_congr_left ?_
      intro f hf
      by_cases href : ∃ l ∈ req.items, l.food_item_id = f.id
      · have hfmem : f ∈ fetchedFoods st req := mem_fetched hf href
        have hfind : ((fetchedFoods st req).map
              (fun x => { x with stock := x.stock - sumQ req.items x.id })).find?
                (fun g => g.id == f.id)
            = some ({ f with stock := f.stock - sumQ req.items f.id } : FoodItem) := by
          rw [List.find?_map]
          have hfind0 : (fetchedFoods st req).find?
              (fun x => x.id == f.id) = some f :=
            find?_id_of_mem (fetched_nodup hnd) hfmem
          have hpred : (fun g => g.id == f.id) ∘
              (fun x : FoodItem => ({ x with stock := x.stock - sumQ req.items x.id } : FoodItem))
              = (fun x : FoodItem => x.id == f.id) := rfl
          rw [hpred, hfind0]
          rfl
        rw [hfind]
      · have hfind : ((fetchedFoods st req).map
              (fun x => { x with stock := x.stock - sumQ req.items x.id })).find?
                (fun g => g.id == f.id) = none := by
          rw [List.find?_map]
          have hfind0 : (fetchedFoods st req).find? (fun x => x.id == f.id) = none := by
            rw [List.find?_eq_none]
            intro x hx
            have hxids := (contains_true_iff _ _).mp (List.mem_filter.mp hx).2
            rcases List.mem_map.mp hxids with ⟨l, hl, hlid⟩
            simp only [beq_iff_eq]
            intro hxf
            exact href ⟨l, hl, by rw [hlid, hxf]⟩
          have hpred : (fun g => g.id == f.id) ∘
              (fun x : FoodItem => ({ x with stock := x.stock - sumQ req.items x.id } : FoodItem))
              = (fun x : FoodItem => x.id == f.id) := rfl
          rw [hpred, hfind0]
          rfl
        rw [hfind]
        have hz : sumQ req.items f.id = 0 :=
          sumQ_eq_zero (fun l hl => fun hlf => href ⟨l, hl, hlf⟩)
        rw [hz, sub_zero]
  refine ⟨hmain, ?_⟩
  intro f hf href
  rw [hmain]
  have hz : sumQ req.items f.id = 0 := sumQ_eq_zero href
  refine List.mem_map.mpr ⟨f, hf, ?_⟩
  rw [hz, sub_zero]

lemma applyNameUpdate_stock (item : FoodItem) (n? : Option String) :
    (applyNameUpdate item n?).stock = item.stock := by
  cases n? with
  | none => rfl
  | some n =>
    by_cases h : (n == "") = true
    · simp [applyNameUpdate, h]
    · simp [applyNameUpdate, h]

lemma applyPriceUpdate_stock (item : FoodItem) (p? : Option ℚ) :
    (applyPriceUpdate item p?).stock = item.stock := by
  cases p? <;> rfl

lemma applyCategoryUpdate_stock (item : FoodItem) (c? : Option String) :
    (applyCategoryUpdate item c?).stock = item.stock := by
  cases c? with
  | none => rfl
  | some c =>
    by_cases h : (c == "") = true
    · simp [applyCategoryUpdate, h]
    · simp [applyCategoryUpdate, h]

/-- A by-primary-key row replacement keeps all stocks non-negative when the
replacement row's stock is. -/
lemma stock_nonneg_map_update {l : List FoodItem} {fid : Int} {itemX : FoodItem}
    (hinv : ∀ f ∈ l, 0 ≤ f.stock) (hstock : 0 ≤ itemX.stock) :
    ∀ f ∈ l.map (fun x => if x.id == fid then itemX else x), 0 ≤ f.stock := by
  intro f hf
  rcases List.mem_map.mp hf with ⟨x, hx, hxf⟩
  by_cases hb : (x.id == fid) = true
  · rw [← hxf, if_pos hb]; exact hstock
  · rw [← hxf, if_neg hb]; exact hinv x hx

def wReqFrame : OrderCreate := ⟨1, [⟨1, 4⟩]⟩

theorem stock_frame_witness :
    (wStore.food_items.map (fun f => f.id)).Nodup ∧
    (create_order wStore 0 wReqFrame).2.isOk = true ∧
    ((create_order wStore 0 wReqFrame).1.food_items
      = wStore.food_items.map
          (fun f => { f with stock := f.stock - sumQ wReqFrame.items f.id }) ∧
    ∀ f ∈ wStore.food_items,
      (∀ l ∈ wReqFrame.items, l.food_item_id ≠ f.id) →
      f ∈ (create_order wStore 0 wReqFrame).1.food_items) :=
  ⟨by decide, by decide,
    successful_order_stock_frame wStore 0 wReqFrame (by decide) (by decide)⟩

/-- C9: `FoodItem.stock ≥ 0` is an invariant preserved by every exposed
operation that can touch stock: food-item creation and update reject
negative stock, restock only adds a positive amount, deletion only removes
rows, and order creation only decrements quantities it has checked against
the running stock. -/
theorem stock_nonneg_invariant (st : Store)
    (hinv : ∀ f ∈ st.food_items, 0 ≤ f.stock) :
    (∀ req, ∀ f ∈ (create_food_item st req).1.food_items, 0 ≤ f.stock) ∧
    (∀ fid u, ∀ f ∈ (update_food_item st fid u).1.food_items, 0 ≤ f.stock) ∧
    (∀ fid b, ∀ f ∈ (restock_food_item st fid b).1.food_items, 0 ≤ f.stock) ∧
    (∀ fid, ∀ f ∈ (delete_food_item st fid).1.food_items, 0 ≤ f.stock) ∧
    (∀ now req, ∀ f ∈ (create_order st now req).1.food_items, 0 ≤ f.stock) := by
  refine ⟨?_, ?_, ?_, ?_, ?_⟩
  · intro req f hf
    by_cases h1 : req.stock < 0
    · simp only [create_food_item, if_pos h1] at hf
      exact hinv f hf
    · by_cases h2 : (st.food_items.any
          (fun f => f.name.toLower == req.name.toLower)) = true
      · simp only [create_food_item, if_neg h1, if_pos h2] at hf
        exact hinv f hf
      · simp only [create_food_item, if_neg h1, if_neg h2] at hf
        rcases List.mem_append.mp hf with hold | hnew
        · exact hinv f hold
        · rw [List.mem_singleton] at hnew
          rw [hnew]
          show (0 : Int) ≤ req.stock
          omega
  · intro fid u f hf
    simp only [update_food_item] at hf
    split at hf
    · exact hinv f hf
    · split at hf
      · exact hinv f hf
      next item hfind =>
        split at hf
        · exact hinv f hf
        · split at hf
          next s heq =>
            split at hf
            · exact hinv f hf
            next hs =>
              refine stock_nonneg_map_update hinv ?_ f hf
              show (0 : Int) ≤ s
              omega
          next heq =>
            refine stock_nonneg_map_update hinv ?_ f hf
            rw [applyCategoryUpdate_stock, applyPriceUpdate_stock,
              applyNameUpdate_stock]
            exact hinv item (List.mem_of_find?_eq_some hfind)
  · intro fid b f hf
    simp only [restock_food_item] at hf
    split at hf
    · exact hinv f hf
    · split at hf
      · exact hinv f hf
      next hguard item hfind =>
        refine stock_nonneg_map_update hinv ?_ f hf
        show (0 : Int) ≤ item.stock + b.added_stock
        have := hinv item (List.mem_of_find?_eq_some hfind)
        omega
  · intro fid f hf
    simp only [delete_food_item] at hf
    split at hf
    · exact hinv f hf
    · split at hf
      · exact hinv f hf
      · exact hinv f (List.mem_of_mem_filter hf)
  · intro now req f hf
    rcases create_order_shape st now req with hsame | ⟨foods1, total, pend, hp, _, hcom⟩
    · rw [hsame] at hf
      exact hinv f hf
    · rw [hcom] at hf
      have hfetched : ∀ g ∈ fetchedFoods st req, 0 ≤ g.stock :=
        fun g hg => hinv g (List.mem_filter.mp hg).1
      have hfoods1 : ∀ g ∈ foods1, 0 ≤ g.stock :=
        processItems_ok_nonneg hfetched hp
      rcases commitStocks_mem hf with hnew | hold
      · exact hfoods1 f hnew
      · exact hinv f hold

theorem stock_nonneg_witness :
    (∀ f ∈ wStore.food_items, 0 ≤ f.stock) ∧
    ((∀ req, ∀ f ∈ (create_food_item wStore req).1.food_items, 0 ≤ f.stock) ∧
     (∀ fid u, ∀ f ∈ (update_food_item wStore fid u).1.food_items, 0 ≤ f.stock) ∧
     (∀ fid b, ∀ f ∈ (restock_food_item wStore fid b).1.food_items, 0 ≤ f.stock) ∧
     (∀ fid, ∀ f ∈ (delete_food_item wStore fid).1.food_items, 0 ≤ f.stock) ∧
     (∀ now req, ∀ f ∈ (create_order wStore now req).1.food_items, 0 ≤ f.stock)) :=
  ⟨by decide, stock_nonneg_invariant wStore (by decide)⟩

/-- C4 as stated is false on the code: the user lookup runs before the
empty-item check, so a request with `items = []` and an unknown user id
fails `NotFound`, not `InvalidRequest`.  Concrete refutation on the empty
store with user_id 1. -/
theorem empty_items_unknown_user_not_invalid_request :
    (create_order ⟨[], [], [], []⟩ 0 ⟨1, []⟩).2
        = Except.error (ApiError.notFound "User not found") ∧
    errIsInvalidReq (create_order ⟨[], [], [], []⟩ 0 ⟨1, []⟩).2 = false :=
  ⟨rfl, rfl⟩

/-- C4 amended: order creation rejects an empty item list with
`InvalidRequest` as its second step, after the user lookup — for every
request with `items = []` whose user id exists, the result is
`InvalidRequest` (with an unknown user id it is `NotFound`). -/
theorem empty_items_rejected_after_user_lookup
    (st : Store) (now : Nat) (req : OrderCreate)
    (hu : (st.users.find? (fun x => x.id == req.user_id)).isSome = true)
    (he : req.items = []) :
    (create_order st now req).2
      = Except.error (ApiError.invalidReq "Order must contain at least one item") := by
  rcases Option.isSome_iff_exists.mp hu with ⟨u, hufind⟩
  simp [create_order, hufind, he]

def wReqEmpty : OrderCreate := ⟨1, []⟩

theorem empty_items_witness :
    (wStore.users.find? (fun x => x.id == wReqEmpty.user_id)).isSome = true ∧
    wReqEmpty.items = [] ∧
    (create_order wStore 0 wReqEmpty).2
      = Except.error (ApiError.invalidReq "Order must contain at least one item") :=
  ⟨by decide, rfl,
    empty_items_rejected_after_user_lookup wStore 0 wReqEmpty (by decide) rfl⟩

/-- C8: lines are validated in input order — once a prefix passes, the
first failing line determines the whole request's error, whatever follows
it — and within one line the checks run in source order against the
running stock: unknown id gives `NotFound`; otherwise exhausted (≤ 0)
running stock gives `OutOfStock`; otherwise a quantity above the running
stock gives `InsufficientStock`; otherwise the line passes. -/
theorem first_failing_line_determines_error
    (foods : List FoodItem) (total : ℚ) (acc : List PendingItem)
    (pre : List OrderItemCreate) (line : OrderItemCreate)
    (rest : List OrderItemCreate) (foods1 : List FoodItem) (total1 : ℚ)
    (acc1 : List PendingItem)
    (hpre : processItems foods total acc pre = .ok (foods1, total1, acc1)) :
    (∀ e, lineCheck foods1 line = some e →
      processItems foods total acc (pre ++ line :: rest) = .error e) ∧
    (foods1.find? (fun f => f.id == line.food_item_id) = none →
      lineCheck foods1 line = some (ApiError.notFound
        ("Food item ID " ++ toString line.food_item_id ++ " not found"))) ∧
    (∀ food, foods1.find? (fun f => f.id == line.food_item_id) = some food →
      food.stock ≤ 0 →
      lineCheck foods1 line = some (ApiError.outOfStock food.name)) ∧
    (∀ food, foods1.find? (fun f => f.id == line.food_item_id) = some food →
      0 < food.stock → food.stock < line.quantity →
      lineCheck foods1 line = some
        (ApiError.insufficientStock food.name food.stock)) ∧
    (∀ food, foods1.find? (fun f => f.id == line.food_item_id) = some food →
      0 < food.stock → line.quantity ≤ food.stock →
      lineCheck foods1 line = none) := by
  refine ⟨?_, ?_, ?_, ?_, ?_⟩
  · intro e he
    rw [processItems_append, hpre]
    exact processItems_cons_err he
  · intro hfind
    simp only [lineCheck, hfind]
  · intro food hfind hs
    simp only [lineCheck, hfind]
    rw [if_pos hs]
  · intro food hfind hs hq
    simp only [lineCheck, hfind]
    rw [if_neg (not_le.mpr hs), if_pos hq]
  · intro food hfind hs hq
    simp only [lineCheck, hfind]
    rw [if_neg (not_le.mpr hs), if_neg (not_lt.mpr hq)]

def wTeaEmptyStock : FoodItem :=
  { id := 1, name := "Tea", price := 10, category := "Drink", stock := 0 }

theorem first_failing_witness :
    processItems [wTea] 0 [] [⟨1, 5⟩]
      = Except.ok ([wTeaEmptyStock], 50, [⟨1, 5, 10, 50⟩]) ∧
    lineCheck [wTeaEmptyStock] ⟨1, 1⟩
      = some (ApiError.outOfStock "Tea") ∧
    processItems [wTea] 0 [] ([⟨1, 5⟩] ++ ⟨1, 1⟩ :: [⟨2, 1⟩])
      = Except.error (ApiError.outOfStock "Tea") :=
  ⟨by norm_num [processItems, setStock, wTea, wTeaEmptyStock], by decide,
    (first_failing_line_determines_error [wTea] 0 [] [⟨1, 5⟩] ⟨1, 1⟩ [⟨2, 1⟩]
        [wTeaEmptyStock] 50 [⟨1, 5, 10, 50⟩]
        (by norm_num [processItems, setStock, wTea, wTeaEmptyStock])).1
      (ApiError.outOfStock "Tea") (by decide)⟩

/-- C10: the request schema puts no lower bound on a line's quantity (a
plain integer), and the per-line validation accepts any line with zero or
negative quantity whenever the referenced item's running stock is positive:
the loop proceeds, adds price × quantity to the running total, records the
pending line, and the running stock becomes stock − quantity ≥ stock (the
contribution being ≤ 0 whenever the price is non-negative). -/
theorem nonpositive_quantity_accepted
    (foods : List FoodItem) (total : ℚ) (acc : List PendingItem)
    (line : OrderItemCreate) (rest : List OrderItemCreate) (food : FoodItem)
    (hfind : foods.find? (fun f => f.id == line.food_item_id) = some food)
    (hs : 0 < food.stock) (hq : line.quantity ≤ 0) :
    lineCheck foods line = none ∧
    processItems foods total acc (line :: rest)
      = processItems (setStock foods food.id (food.stock - line.quantity))
          (total + food.price * (line.quantity : ℚ))
          (acc ++ [⟨line.food_item_id, line.quantity, food.price,
                   food.price * (line.quantity : ℚ)⟩]) rest ∧
    food.stock ≤ food.stock - line.quantity ∧
    (0 ≤ food.price → food.price * (line.quantity : ℚ) ≤ 0) := by
  have hs' : ¬ food.stock ≤ 0 := not_le.mpr hs
  have hq' : ¬ line.quantity > food.stock := by omega
  refine ⟨?_, ?_, ?_, ?_⟩
  · simp only [lineCheck, hfind]
    rw [if_neg hs', if_neg hq']
  · simp only [processItems, hfind]
    rw [if_neg hs', if_neg hq']
  · omega
  · intro hp
    have hqq : (line.quantity : ℚ) ≤ 0 := by exact_mod_cast hq
    exact mul_nonpos_iff.mpr (Or.inl ⟨hp, hqq⟩)

/-- The food rows after a price-only update through `update_food_item`:
the row with id `fid` (which `find?` resolved to `item`) gets price `p`,
every other row is untouched. -/
def priceOnlyFoods (st : Store) (fid : Int) (item : FoodItem) (p : ℚ) :
    List FoodItem :=
  st.food_items.map (fun x => if x.id == fid then { item with price := p } else x)

lemma update_price_only_store (st : Store) (fid : Int) (p : ℚ) (item : FoodItem)
    (hfind : st.food_items.find? (fun x => x.id == fid) = some item) :
    (update_food_item st fid ⟨none, some p, none, none⟩).1
      = { st with food_items := priceOnlyFoods st fid item p } := by
  simp [update_food_item, hfind, applyNameUpdate, applyPriceUpdate,
    applyCategoryUpdate, priceOnlyFoods]

/-- A price-only change to a food row does not alter any invoice: the
invoice reads only the food's name, and the line prices come from the
snapshotted `item_price` / `total_price` columns. -/
lemma invoiceOfOrder_price_only (st : Store) (o : Order) (fid : Int) (p : ℚ)
    (item : FoodItem)
    (hfind : st.food_items.find? (fun x => x.id == fid) = some item) :
    invoiceOfOrder { st with food_items := priceOnlyFoods st fid item p } o
      = invoiceOfOrder st o := by
  have hitemid : item.id = fid := by simpa using List.find?_some hfind
  rcases hu : st.users.find? (fun u => u.id == o.user_id) with _ | u <;>
    simp only [invoiceOfOrder, hu]
  have hmo : mapOption (fun i => ((priceOnlyFoods st fid item p).find?
      (fun f => f.id == i.food_item_id)).map
      (fun f => InvoiceItem.mk f.name i.quantity i.item_price i.total_price))
      (st.order_items.filter (fun i => i.order_id == o.id))
      = mapOption (fun i => (st.food_items.find?
          (fun f => f.id == i.food_item_id)).map
          (fun f => InvoiceItem.mk f.name i.quantity i.item_price i.total_price))
        (st.order_items.filter (fun i => i.order_id == o.id)) := by
    refine mapOption_congr ?_
    intro i _
    rw [priceOnlyFoods, List.find?_map]
    have hpred : ((fun f => f.id == i.food_item_id) ∘ (fun x : FoodItem =>
        if x.id == fid then { item with price := p } else x))
        = (fun x : FoodItem => x.id == i.food_item_id) := by
      funext x
      show ((if x.id == fid then ({ item with price := p } : FoodItem) else x).id
          == i.food_item_id) = (x.id == i.food_item_id)
      by_cases hb : (x.id == fid) = true
      · rw [if_pos hb]
        show (item.id == i.food_item_id) = (x.id == i.food_item_id)
        rw [hitemid, (show x.id = fid by simpa using hb)]
      · rw [if_neg hb]
    rw [hpred]
    rcases hff : st.food_items.find? (fun x => x.id == i.food_item_id) with _ | f
    · rw [hff]
      rfl
    · rw [hff]
      show some (InvoiceItem.mk
          ((if (f.id == fid) = true then ({ item with price := p } : FoodItem)
            else f).name) i.quantity i.item_price i.total_price)
        = some (InvoiceItem.mk f.name i.quantity i.item_price i.total_price)
      by_cases hb : (f.id == fid) = true
      · have hfid2 : f.id = i.food_item_id := by simpa using List.find?_some hff
        have hfidfid : f.id = fid := by simpa using hb
        have hsame : st.food_items.find? (fun x => x.id == fid) = some f := by
          rw [← hff]
          congr 1
          funext x
          rw [← hfid2, hfidfid]
        have hf_eq : f = item := Option.some.inj (hsame.symm.trans hfind)
        rw [if_pos hb, hf_eq]
      · rw [if_neg hb]
  rw [hmo]

lemma get_order_price_only (st : Store) (oid fid : Int) (p : ℚ) :
    get_order (update_food_item st fid ⟨none, some p, none, none⟩).1 oid
      = get_order st oid := by
  rcases hfind : st.food_items.find? (fun x => x.id == fid) with _ | item
  · have hsame : (update_food_item st fid ⟨none, some p, none, none⟩).1 = st := by
      simp [update_food_item, hfind]
    rw [hsame]
  · rw [update_price_only_store st fid p item hfind]
    rcases hfo : st.orders.find? (fun x => x.id == oid) with _ | o <;>
      simp only [get_order, hfo]
    rw [invoiceOfOrder_price_only st o fid p item hfind]

/-- A successful `get_order` returns exactly the stored projection: the
matching order row's id, total and timestamp; the order's user's name as
customer name; the count of the order's stored line items as line count;
and, completely and in order, one invoice line per stored line item of the
order carrying the referenced food's name and the snapshotted quantity and
prices. -/
lemma get_order_projection (st : Store) (oid : Int) (inv : Invoice)
    (hg : get_order st oid = Except.ok inv) :
    ∃ o ∈ st.orders, o.id = oid ∧ inv.order_id = o.id ∧
      inv.total_amount = o.total_amount ∧ inv.order_date = o.created_at ∧
      (∃ u, st.users.find? (fun x => x.id == o.user_id) = some u ∧
        inv.customer_name = u.name) ∧
      inv.total_items
        = (st.order_items.filter (fun i => i.order_id == o.id)).length ∧
      inv.items.length
        = (st.order_items.filter (fun i => i.order_id == o.id)).length ∧
      (∀ k (hk : k < (st.order_items.filter (fun i => i.order_id == o.id)).length)
          (hk' : k < inv.items.length),
        ∃ f, st.food_items.find? (fun x => x.id ==
            ((st.order_items.filter (fun i => i.order_id == o.id)).get
              ⟨k, hk⟩).food_item_id) = some f ∧
          inv.items.get ⟨k, hk'⟩ = InvoiceItem.mk f.name
            ((st.order_items.filter (fun i => i.order_id == o.id)).get
              ⟨k, hk⟩).quantity
            ((st.order_items.filter (fun i => i.order_id == o.id)).get
              ⟨k, hk⟩).item_price
            ((st.order_items.filter (fun i => i.order_id == o.id)).get
              ⟨k, hk⟩).total_price) ∧
      ∀ it ∈ inv.items, ∃ i ∈ st.order_items, i.order_id = o.id ∧
        it.quantity = i.quantity ∧ it.unit_price = i.item_price ∧
        it.subtotal = i.total_price := by
  rcases hfo : st.orders.find? (fun x => x.id == oid) with _ | o <;>
    simp only [get_order, hfo] at hg
  · exact absurd hg (by simp)
  · rcases hio : invoiceOfOrder st o with _ | inv0 <;> simp only [hio] at hg
    · exact absurd hg (by simp)
    · have hinv0 : inv0 = inv := by simpa using hg
      simp only [invoiceOfOrder] at hio
      rcases hu : st.users.find? (fun u => u.id == o.user_id) with _ | u <;>
        simp only [hu] at hio
      · exact absurd hio (by simp)
      · rcases hmo : mapOption (fun i =>
            (st.food_items.find? (fun f => f.id == i.food_item_id)).map
              (fun f => InvoiceItem.mk f.name i.quantity i.item_price i.total_price))
            (st.order_items.filter (fun i => i.order_id == o.id))
            with _ | lines <;> simp only [hmo] at hio
        · exact absurd hio (by simp)
        · subst hinv0
          have heq2 := Option.some.inj hio
          subst heq2
          refine ⟨o, List.mem_of_find?_eq_some hfo,
            by simpa using List.find?_some hfo, rfl, rfl, rfl,
            ⟨u, hu, rfl⟩, rfl, (mapOption_get hmo).1, ?_, ?_⟩
          · intro k hk hk'
            have hgk := (mapOption_get hmo).2 k hk hk'
            rcases hff : st.food_items.find? (fun x => x.id ==
                ((st.order_items.filter (fun i => i.order_id == o.id)).get
                  ⟨k, hk⟩).food_item_id) with _ | f <;> rw [hff] at hgk
            · exact absurd hgk (by simp)
            · exact ⟨f, hff, (Option.some.inj hgk).symm⟩
          · intro it hit
            rcases mapOption_mem hmo it hit with ⟨i, hi, hgi⟩
            have hi_mem : i ∈ st.order_items := (List.mem_filter.mp hi).1
            have hi_oid : i.order_id = o.id := by
              simpa using (List.mem_filter.mp hi).2
            rcases hff : st.food_items.find? (fun f => f.id == i.food_item_id)
                with _ | f <;> rw [hff] at hgi
            · exact absurd hgi (by simp)
            · have hit_eq : it = InvoiceItem.mk f.name i.quantity i.item_price
                  i.total_price := by simpa using hgi.symm
              exact ⟨i, hi_mem, hi_oid, by rw [hit_eq], by rw [hit_eq],
                by rw [hit_eq]⟩

/-- C7: fetching an order by id fails `NotFound` exactly when no order row
has that id; a price-only update to any food item never changes any
invoice, because each line is priced from the snapshotted `item_price` /
`total_price`; and a successful fetch returns exactly the stored
projection — order id, the order's user's name as customer name, the
stored line-item count, total amount and creation timestamp, and,
completely and in input order, one line per stored line item with the
referenced food's name, the quantity and the snapshot prices.  The
embedding of `get_order` takes the store by value and returns only the
invoice, reflecting that the handler is read-only. -/
theorem get_order_spec (st : Store) (oid : Int) :
    ((get_order st oid = Except.error (ApiError.notFound "Order not found")) ↔
      ∀ o ∈ st.orders, o.id ≠ oid) ∧
    (∀ fid p, get_order (update_food_item st fid ⟨none, some p, none, none⟩).1 oid
        = get_order st oid) ∧
    (∀ inv, get_order st oid = Except.ok inv →
      ∃ o ∈ st.orders, o.id = oid ∧ inv.order_id = o.id ∧
        inv.total_amount = o.total_amount ∧ inv.order_date = o.created_at ∧
        (∃ u, st.users.find? (fun x => x.id == o.user_id) = some u ∧
          inv.customer_name = u.name) ∧
        inv.total_items
          = (st.order_items.filter (fun i => i.order_id == o.id)).length ∧
        inv.items.length
          = (st.order_items.filter (fun i => i.order_id == o.id)).length ∧
        (∀ k (hk : k < (st.order_items.filter
              (fun i => i.order_id == o.id)).length)
            (hk' : k < inv.items.length),
          ∃ f, st.food_items.find? (fun x => x.id ==
              ((st.order_items.filter (fun i => i.order_id == o.id)).get
                ⟨k, hk⟩).food_item_id) = some f ∧
            inv.items.get ⟨k, hk'⟩ = InvoiceItem.mk f.name
              ((st.order_items.filter (fun i => i.order_id == o.id)).get
                ⟨k, hk⟩).quantity
              ((st.order_items.filter (fun i => i.order_id == o.id)).get
                ⟨k, hk⟩).item_price
              ((st.order_items.filter (fun i => i.order_id == o.id)).get
                ⟨k, hk⟩).total_price) ∧
        ∀ it ∈ inv.items, ∃ i ∈ st.order_items, i.order_id = o.id ∧
          it.quantity = i.quantity ∧ it.unit_price = i.item_price ∧
          it.subtotal = i.total_price) := by
  refine ⟨?_, ?_, ?_⟩
  · rcases hfo : st.orders.find? (fun x => x.id == oid) with _ | o
    · constructor
      · intro _ o ho
        have := List.find?_eq_none.mp hfo o ho
        simpa using this
      · intro _
        rw [get_order, hfo]
    · constructor
      · intro hg
        exfalso
        simp only [get_order, hfo] at hg
        rcases hio : invoiceOfOrder st o with _ | inv <;> simp only [hio] at hg
        · exact absurd hg (by simp)
        · exact absurd hg (by simp)
      · intro hall
        exfalso
        exact hall o (List.mem_of_find?_eq_some hfo)
          (by simpa using List.find?_some hfo)
  · intro fid p
    exact get_order_price_only st oid fid p
  · intro inv hg
    exact get_order_projection st oid inv hg

def wOrder : Order :=
  { id := 7, user_id := 1, total_amount := 30, created_at := 5 }

def wOrderLine : OrderItem :=
  { id := 1, order_id := 7, food_item_id := 1, quantity := 3,
    item_price := 10, total_price := 30 }

/-- A store whose one order is already persisted, so the witness
instantiation of the fetch-by-id theorem exercises the success projection,
not just the NotFound branch. -/
def wStoreOrders : Store :=
  { users := [wUser], food_items := [wTea, wCake], orders := [wOrder],
    order_items := [wOrderLine] }

theorem get_order_witness :
    (get_order wStoreOrders 7).isOk = true ∧
    (((get_order wStoreOrders 7
          = Except.error (ApiError.notFound "Order not found")) ↔
        ∀ o ∈ wStoreOrders.orders, o.id ≠ 7) ∧
      (∀ fid p, get_order
            (update_food_item wStoreOrders fid ⟨none, some p, none, none⟩).1 7
          = get_order wStoreOrders 7) ∧
      (∀ inv, get_order wStoreOrders 7 = Except.ok inv →
        ∃ o ∈ wStoreOrders.orders, o.id = 7 ∧ inv.order_id = o.id ∧
          inv.total_amount = o.total_amount ∧ inv.order_date = o.created_at ∧
          (∃ u, wStoreOrders.users.find? (fun x => x.id == o.user_id) = some u ∧
            inv.customer_name = u.name) ∧
          inv.total_items
            = (wStoreOrders.order_items.filter
                (fun i => i.order_id == o.id)).length ∧
          inv.items.length
            = (wStoreOrders.order_items.filter
                (fun i => i.order_id == o.id)).length ∧
          (∀ k (hk : k < (wStoreOrders.order_items.filter
                (fun i => i.order_id == o.id)).length)
              (hk' : k < inv.items.length),
            ∃ f, wStoreOrders.food_items.find? (fun x => x.id ==
                ((wStoreOrders.order_items.filter
                  (fun i => i.order_id == o.id)).get ⟨k, hk⟩).food_item_id)
                = some f ∧
              inv.items.get ⟨k, hk'⟩ = InvoiceItem.mk f.name
                ((wStoreOrders.order_items.filter
                  (fun i => i.order_id == o.id)).get ⟨k, hk⟩).quantity
                ((wStoreOrders.order_items.filter
                  (fun i => i.order_id == o.id)).get ⟨k, hk⟩).item_price
                ((wStoreOrders.order_items.filter
                  (fun i => i.order_id == o.id)).get ⟨k, hk⟩).total_price) ∧
          ∀ it ∈ inv.items, ∃ i ∈ wStoreOrders.order_items, i.order_id = o.id ∧
            it.quantity = i.quantity ∧ it.unit_price = i.item_price ∧
            it.subtotal = i.total_price)) :=
  ⟨by decide, get_order_spec wStoreOrders 7⟩

theorem nonpositive_quantity_witness :
    [wTea].find? (fun f => f.id == (1 : Int)) = some wTea ∧
    (0 : Int) < wTea.stock ∧ ((-2 : Int) ≤ 0) ∧
    (lineCheck [wTea] ⟨1, -2⟩ = none ∧
     processItems [wTea] 0 [] (⟨1, -2⟩ :: [])
       = processItems (setStock [wTea] wTea.id (wTea.stock - (-2)))
           (0 + wTea.price * ((-2 : Int) : ℚ))
           ([] ++ [⟨1, -2, wTea.price, wTea.price * ((-2 : Int) : ℚ)⟩]) [] ∧
     wTea.stock ≤ wTea.stock - (-2) ∧
     (0 ≤ wTea.price → wTea.price * ((-2 : Int) : ℚ) ≤ 0)) :=
  ⟨rfl, by decide, by decide,
    nonpositive_quantity_accepted [wTea] 0 [] ⟨1, -2⟩ [] wTea rfl
      (by decide) (by decide)⟩

end Canteen
